import Mathlib

/-
Shallow embedding of the terraui repository (src/main.go together with the
wrapText/getIndentForLine helper file).  Strings are modelled as lists of
characters; Go's regexp patterns are embedded as deterministic scanners that
mirror RE2's leftmost-first semantics on the concrete patterns used by the
program; the streaming line classifier is a state machine that returns the
messages it emits.  All definitions are executable so that concrete runs of
the program can be checked by evaluation.
-/

set_option maxRecDepth 10000

namespace Terraui

/-- Strings from the Go source are modelled as lists of characters. -/
abbrev Str := List Char

/-- Conversion from a Lean string literal to the character-list model. -/
def str (s : String) : Str := s.data

/-- Character class of RE2's Perl class backslash-s: tab, newline, form feed,
carriage return and space (this is what the compiled regex patterns use). -/
def reSpace (c : Char) : Bool :=
  c = '\t' || c = '\n' || c = '\x0c' || c = '\r' || c = ' '

/-- Character class of Go's unicode.IsSpace (used by strings.TrimSpace):
the Unicode white-space property. -/
def goSpace (c : Char) : Bool :=
  let n := c.val
  (9 ≤ n && n ≤ 13) || n = 32 || n = 0x85 || n = 0xA0 || n = 0x1680 ||
  (0x2000 ≤ n && n ≤ 0x200A) || n = 0x2028 || n = 0x2029 ||
  n = 0x202F || n = 0x205F || n = 0x3000

/-- Embedding of Go's strings.TrimSpace. -/
def trimSpace (s : Str) : Str :=
  ((s.dropWhile goSpace).reverse.dropWhile goSpace).reverse

/-- Matching a literal pattern at the start of the input: returns the suffix
after the literal when the input starts with it.  This is the building block
for the literal parts of the embedded regex scanners. -/
def expectLit : Str → Str → Option Str
  | [], s => some s
  | _ :: _, [] => none
  | p :: ps, c :: s => if c = p then expectLit ps s else none

/-- Embedding of Go's strings.Index/strings.Contains search: the suffix that
follows the first occurrence of the pattern, if the pattern occurs. -/
def findSub (pat : Str) : Str → Option Str
  | [] => expectLit pat []
  | c :: rest =>
    match expectLit pat (c :: rest) with
    | some suf => some suf
    | none => findSub pat rest

/-- Boolean form of findSub, embedding strings.Contains. -/
def containsSub (pat s : Str) : Bool := (findSub pat s).isSome

/-- Character class of the regex class [0-9;] used inside SGR sequences. -/
def sgrParamChar (c : Char) : Bool := c.isDigit || c = ';'

/-- Scanner for one match of ansiPattern (ESC bracket [0-9;]* m) starting at
the head of the input; returns the suffix after the match. -/
def matchAnsi : Str → Option Str
  | a :: b :: rest =>
    if a = '\x1b' ∧ b = '[' then
      match rest.dropWhile sgrParamChar with
      | 'm' :: r2 => some r2
      | _ => none
    else none
  | _ => none

/-- Fuel-indexed single pass of regexp ReplaceAllString with the empty
replacement for ansiPattern: scan left to right, delete each leftmost
non-overlapping match, continue after its end.  The fuel argument makes the
definition structural; it is called with the input length, which bounds the
number of scan steps. -/
def stripANSIAux : Nat → Str → Str
  | 0, s => s
  | _ + 1, [] => []
  | fuel + 1, c :: rest =>
    match matchAnsi (c :: rest) with
    | some r => stripANSIAux fuel r
    | none => c :: stripANSIAux fuel rest

/-- Embedding of stripANSI from src/main.go: remove every CSI m-sequence. -/
def stripANSI (s : Str) : Str := stripANSIAux s.length s

/-- Scanner for the body of ansiColorPattern after ESC bracket, i.e. the RE2
alternation (3[0-9] then 4[0-9] then 9[0-9] then 10[0-9] then 38;[0-9;]+ then
48;[0-9;]+) followed by the letter m, with leftmost-first backtracking.
Returns the suffix after the final m of the match. -/
def colorBodyRem : Str → Option Str
  | a :: b :: rest =>
    if (a = '3' ∨ a = '4' ∨ a = '9') ∧ b.isDigit then
      match rest with
      | c :: rest2 =>
        if c = 'm' then some rest2
        else if c = ';' then
          if (a = '3' ∨ a = '4') ∧ b = '8' then
            if rest2.takeWhile sgrParamChar ≠ [] then
              match rest2.dropWhile sgrParamChar with
              | 'm' :: r2 => some r2
              | _ => none
            else none
          else none
        else none
      | [] => none
    else if a = '1' ∧ b = '0' then
      match rest with
      | c :: d :: r2 => if c.isDigit ∧ d = 'm' then some r2 else none
      | _ => none
    else none
  | _ => none

/-- Scanner for one match of ansiColorPattern starting at the head. -/
def matchColor : Str → Option Str
  | a :: b :: rest =>
    if a = '\x1b' ∧ b = '[' then colorBodyRem rest else none
  | _ => none

/-- Fuel-indexed single pass deleting every leftmost ansiColorPattern match. -/
def removeColorAux : Nat → Str → Str
  | 0, s => s
  | _ + 1, [] => []
  | fuel + 1, c :: rest =>
    match matchColor (c :: rest) with
    | some r => removeColorAux fuel r
    | none => c :: removeColorAux fuel rest

/-- First step of sanitizeTerraformANSI: strip the SGR colour codes. -/
def removeColor (s : Str) : Str := removeColorAux s.length s

/-- Literal of ansiResetPattern: the reset-all sequence ESC bracket 0 m. -/
def resetSeq : Str := ['\x1b', '[', '0', 'm']

/-- Fuel-indexed single pass deleting every occurrence of the literal
reset-all sequence ESC bracket 0 m (ansiResetPattern). -/
def removeResetAux : Nat → Str → Str
  | 0, s => s
  | _ + 1, [] => []
  | fuel + 1, c :: rest =>
    match expectLit resetSeq (c :: rest) with
    | some r => removeResetAux fuel r
    | none => c :: removeResetAux fuel rest

/-- Second step of sanitizeTerraformANSI: strip the reset-all codes. -/
def removeReset (s : Str) : Str := removeResetAux s.length s

/-- Embedding of sanitizeTerraformANSI from src/main.go: strip colour codes,
then strip reset codes, preserving all other formatting codes. -/
def sanitizeTerraformANSI (s : Str) : Str := removeReset (removeColor s)

/-- Scanner that reports whether the reset-all sequence ESC bracket 0 m
occurs anywhere in the string (as a contiguous substring). -/
def hasReset : Str → Bool
  | [] => false
  | c :: rest => (expectLit resetSeq (c :: rest)).isSome || hasReset rest

example : stripANSI (str "\x1b[31mRed\x1b[0m") = str "Red" := by decide
example : sanitizeTerraformANSI (str "\x1b[31mA\x1b[1mB\x1b[0m") = str "A\x1b[1mB" := by decide
example : sanitizeTerraformANSI (str "\x1b[38;5;21mX\x1b[4m") = str "X\x1b[4m" := by decide
example : hasReset (str "ab\x1b[0mc") = true := by decide
example : hasReset (str "ab\x1b[1mc") = false := by decide

/-- Capture group of errorPattern/warningPattern after the literal: the RE2
fragment backslash-s* followed by (.+).  The greedy whitespace run backtracks
by one character when nothing is left for the mandatory capture. -/
def captureAfter (rest : Str) : Option Str :=
  match rest with
  | [] => none
  | _ =>
    let tail := rest.dropWhile reSpace
    if tail = [] then some (rest.drop (rest.length - 1)) else some tail

/-- Embedding of errorPattern.FindStringSubmatch: the capture of
(Error: backslash-s* (.+)) at its leftmost match, if any. -/
def errorMatch (s : Str) : Option Str :=
  (findSub (str "Error:") s).bind captureAfter

/-- Embedding of warningPattern.FindStringSubmatch. -/
def warningMatch (s : Str) : Option Str :=
  (findSub (str "Warning:") s).bind captureAfter

/-- Tail of markerPattern after the literal "line": requires at least one
whitespace character followed by a digit. -/
def markerAfterLine (t : Str) : Bool :=
  match t with
  | c :: _ =>
    reSpace c &&
      (match t.dropWhile reSpace with
       | d :: _ => d.isDigit
       | [] => false)
  | [] => false

/-- Embedding of markerPattern (anchored: whitespace*, "on", whitespace+, any+,
whitespace+, "line", whitespace+, digit+).  The middle any+ segment makes the
match an existential over the position where "line" starts: the characters
between "on" and "line" must begin and end with whitespace and have length at
least three. -/
def markerMatch (s : Str) : Bool :=
  match s.dropWhile reSpace with
  | 'o' :: 'n' :: rest =>
    (match rest with
     | c0 :: _ =>
       reSpace c0 &&
         (List.range (rest.length + 1)).any fun j =>
           decide (3 ≤ j) &&
           (match rest.get? (j - 1) with
            | some cj => reSpace cj
            | none => false) &&
           (str "line").isPrefixOf (rest.drop j) &&
           markerAfterLine (rest.drop (j + 4))
     | [] => false)
  | _ => false

example : markerMatch (str "  on main.tf line 12:") = true := by decide
example : markerMatch (str "on x line 3") = true := by decide
example : markerMatch (str "online 3") = false := by decide
example : markerMatch (str "Error: on line") = false := by decide

/-- One line of diagnostic detail (DiagnosticLine in src/main.go). -/
structure DiagnosticLine where
  content : Str
  isMarker : Bool
deriving DecidableEq

/-- One error or warning record (Diagnostic in src/main.go). -/
structure Diagnostic where
  severity : Str
  summary : Str
  detail : List DiagnosticLine
  expanded : Bool
deriving DecidableEq

/-- Stripping of the single leading space that follows the block guide
character, as done on each retained diagnostic line. -/
def dropOneSpace (s : Str) : Str :=
  match s with
  | ' ' :: t => t
  | _ => s

/-- Main loop of parseDiagnosticBlock: iterates over the buffered lines with
their index, accumulating severity, summary and detail lines exactly as the
Go loop does. -/
def diagLoop : List Str → Nat → Str → Str → List DiagnosticLine →
    Str × Str × List DiagnosticLine
  | [], _, sev, sum, det => (sev, sum, det)
  | richLine :: rest, i, sev, sum, det =>
    let cleanLine := stripANSI richLine
    let trimmed := trimSpace cleanLine
    if trimmed = [] then
      if sev ≠ [] then diagLoop rest (i + 1) sev sum (det ++ [⟨[], false⟩])
      else diagLoop rest (i + 1) sev sum det
    else
      let richLineContent := dropOneSpace richLine
      match errorMatch trimmed with
      | some cap =>
        if sev = [] then diagLoop rest (i + 1) (str "error") cap det
        else diagLoop rest (i + 1) sev sum
          (det ++ [⟨richLineContent, markerMatch trimmed⟩])
      | none =>
        match warningMatch trimmed with
        | some cap =>
          if sev = [] then diagLoop rest (i + 1) (str "warning") cap det
          else diagLoop rest (i + 1) sev sum
            (det ++ [⟨richLineContent, markerMatch trimmed⟩])
        | none =>
          if sev ≠ [] ∧ 0 < i then
            diagLoop rest (i + 1) sev sum
              (det ++ [⟨richLineContent, markerMatch trimmed⟩])
          else diagLoop rest (i + 1) sev sum det

/-- Non-empty lines of a block with the guide space stripped, as collected by
the fallback branch of parseDiagnosticBlock. -/
def fallbackLines (richLines : List Str) : List Str :=
  (richLines.filter fun rl => !(trimSpace (stripANSI rl)).isEmpty).map dropOneSpace

/-- Embedding of parseDiagnosticBlock from src/main.go. -/
def parseDiagnosticBlock (richLines : List Str) : Option Diagnostic :=
  match richLines with
  | [] => none
  | _ :: _ =>
    let res := diagLoop richLines 0 [] [] []
    let sev := res.1
    let sum := res.2.1
    let det := res.2.2
    if sev = [] ∨ sum = [] then
      match fallbackLines richLines with
      | [] => none
      | first :: rest =>
        some { severity := str "error", summary := stripANSI first,
               detail := rest.map fun line =>
                 ⟨line, markerMatch (trimSpace (stripANSI line))⟩,
               expanded := true }
    else
      some { severity := sev, summary := sum, detail := det,
             expanded := sev == str "error" }

example :
    parseDiagnosticBlock [str " Error: boom", str " ", str "   with aws_instance.web,"] =
      some ⟨str "error", str "boom",
        [⟨[], false⟩, ⟨str "  with aws_instance.web,", false⟩], true⟩ := by decide

example :
    parseDiagnosticBlock [str " Warning: deprecated"] =
      some ⟨str "warning", str "deprecated", [], false⟩ := by decide

example : parseDiagnosticBlock [str "  ", str ""] = none := by decide

example :
    parseDiagnosticBlock [str " plugin crashed!", str " see logs"] =
      some ⟨str "error", str "plugin crashed!", [⟨str "see logs", false⟩], true⟩ := by
  decide

/-- One planned resource change (ResourceChange in src/main.go). -/
structure ResourceChange where
  address : Str
  action : Str
  actionText : Str
  attributes : List Str
  expanded : Bool
deriving DecidableEq

/-- Embedding of parseAction: the fixed action-phrase table. -/
def parseAction (actionText : Str) : Str :=
  if actionText = str "will be created" then str "create"
  else if actionText = str "will be updated in-place" then str "update"
  else if actionText = str "will be destroyed" then str "destroy"
  else if actionText = str "must be replaced" then str "replace"
  else if actionText = str "will be imported" then str "import"
  else []

/-- Action phrases of headerPattern, in the order of the RE2 alternation. -/
def actionPhrases : List Str :=
  [str "will be created", str "will be destroyed", str "will be updated in-place",
   str "must be replaced", str "will be imported"]

/-- Embedding of headerPattern.FindStringSubmatch (anchored: whitespace*,
"# ", lazy any+, space, action-phrase alternation).  The lazy capture makes
the address the shortest prefix that is followed by a space and one of the
fixed phrases; the trailing input after the phrase is ignored. -/
def headerMatch (s : Str) : Option (Str × Str) :=
  match s.dropWhile reSpace with
  | '#' :: ' ' :: rest =>
    (List.range rest.length).findSome? fun k0 =>
      let k := k0 + 1
      match rest.drop k with
      | ' ' :: tail =>
        match actionPhrases.find? (fun p => p.isPrefixOf tail) with
        | some p => some (rest.take k, p)
        | none => none
      | _ => none
  | _ => none

example :
    headerMatch (str "  # aws_instance.web will be created") =
      some (str "aws_instance.web", str "will be created") := by decide
example : headerMatch (str "# x must be replaced (tainted)") =
    some (str "x", str "must be replaced") := by decide
example : headerMatch (str "plain text") = none := by decide

/-- Embedding of promptPattern ("Enter a value:" whitespace* end-of-text). -/
def promptMatch (s : Str) : Bool :=
  (str "Enter a value:").isSuffixOf ((s.reverse.dropWhile reSpace).reverse)

/-- Embedding of strings.TrimSuffix(line, carriage-return). -/
def trimSuffixCR (s : Str) : Str :=
  if (str "\r").isSuffixOf s then s.dropLast else s

/-- Mutable state of the readInputStream classifier loop, excluding the raw
byte buffer (lineBuffer is carried separately by the reader state). -/
structure StreamState where
  currentResource : Option ResourceChange
  diagLines : List Str
  inResource : Bool
  inDiagnostic : Bool
  bracketDepth : Int
deriving DecidableEq

/-- Initial classifier state. -/
def initState : StreamState := ⟨none, [], false, false, 0⟩

/-- Messages sent over the stream channel.  The Go StreamMsg struct carries
at most one non-nil payload, or the Done flag; this inductive enumerates
those shapes.  StreamMsg in src/main.go has no other field: in particular the
terminal message carries no received-content information. -/
inductive Msg where
  | resource (r : ResourceChange)
  | diagnostic (d : Diagnostic)
  | logLine (s : Str)
  | prompt (p : Str)
  | done
deriving DecidableEq

/-- Decoding and emission of a buffered diagnostic block: the message is sent
only when parseDiagnosticBlock returns a non-nil diagnostic. -/
def emitDiag (diagLines : List Str) : List Msg :=
  match parseDiagnosticBlock diagLines with
  | some d => [Msg.diagnostic d]
  | none => []

/-- Embedding of the processLine closure inside readInputStream: one logical
line updates the classifier state and emits zero or more messages. -/
def processLine (st : StreamState) (rawLine : Str) : StreamState × List Msg :=
  let cleanLine := stripANSI rawLine
  let richLine := sanitizeTerraformANSI rawLine
  if (str "╷").isPrefixOf cleanLine then
    let msgs := if st.inDiagnostic ∧ st.diagLines ≠ [] then emitDiag st.diagLines else []
    ({ st with inDiagnostic := true, diagLines := [] }, msgs)
  else if (str "╵").isPrefixOf cleanLine then
    let msgs := if st.inDiagnostic ∧ st.diagLines ≠ [] then emitDiag st.diagLines else []
    ({ st with inDiagnostic := false, diagLines := [] }, msgs)
  else if st.inDiagnostic then
    let content :=
      if (str "│").isPrefixOf cleanLine then
        match findSub (str "│") richLine with
        | some after => after
        | none => richLine
      else richLine
    ({ st with diagLines := st.diagLines ++ [content] }, [])
  else
    match headerMatch cleanLine with
    | some (addr, phrase) =>
      let msgs :=
        match st.currentResource with
        | some r => [Msg.resource r]
        | none => []
      let newRes : ResourceChange := ⟨addr, parseAction phrase, phrase, [], false⟩
      ({ st with currentResource := some newRes }, msgs)
    | none =>
      if st.currentResource.isSome ∧ containsSub (str " resource \"") cleanLine then
        let d0 : Int := (cleanLine.count '\x7b' : Int) - cleanLine.count '\x7d'
        ({ st with inResource := true, bracketDepth := d0 }, [])
      else if st.inResource then
        match st.currentResource with
        | some r =>
          let depthChange : Int :=
            (cleanLine.count '\x7b' : Int) - cleanLine.count '\x7d'
          if st.bracketDepth + depthChange = 0 ∧ containsSub (str "\x7d") cleanLine then
            ({ st with currentResource := none, inResource := false, bracketDepth := 0 },
             [Msg.resource r])
          else
            let r' :=
              if trimSpace cleanLine ≠ []
              then { r with attributes := r.attributes ++ [cleanLine] } else r
            let d1 := st.bracketDepth + depthChange
            ({ st with currentResource := some r', bracketDepth := d1 }, [])
        | none => ({ st with inResource := false }, [])
      else if trimSpace cleanLine ≠ [] then (st, [Msg.logLine cleanLine])
      else (st, [])

/-- Folding processLine over a list of already-split lines, applying the
carriage-return trim the read loop performs on each complete line. -/
def processLines (st : StreamState) : List Str → StreamState × List Msg
  | [] => (st, [])
  | l :: ls =>
    let r1 := processLine st (trimSuffixCR l)
    let r2 := processLines r1.1 ls
    (r2.1, r1.2 ++ r2.2)

/-- Splitting of the byte buffer at newline characters, as the read loop does:
returns the complete lines (without their newline) and the unterminated
remainder. -/
def splitNL : Str → List Str × Str
  | [] => ([], [])
  | c :: rest =>
    if c = '\n' then
      let p := splitNL rest
      ([] :: p.1, p.2)
    else
      match splitNL rest with
      | ([], r) => ([], c :: r)
      | (l :: ls, r) => ((c :: l) :: ls, r)

/-- Reader state: the unterminated line buffer plus the classifier state. -/
structure ReaderState where
  lineBuffer : Str
  stream : StreamState
deriving DecidableEq

/-- Processing of one chunk returned by a Read call: append to the buffer,
process every complete line, then run the prompt check on the stripped
unterminated remainder. -/
def processChunk (rs : ReaderState) (chunk : Str) : ReaderState × List Msg :=
  let buf := rs.lineBuffer ++ chunk
  let p := splitNL buf
  let r := processLines rs.stream p.1
  let cleanBuffer := stripANSI p.2
  let pmsgs :=
    if promptMatch cleanBuffer then [Msg.prompt (trimSpace cleanBuffer)] else []
  (⟨p.2, r.1⟩, r.2 ++ pmsgs)

/-- Folding processChunk over the sequence of chunks the reader receives. -/
def runChunks (rs : ReaderState) : List Str → ReaderState × List Msg
  | [] => (rs, [])
  | ch :: rest =>
    let r1 := processChunk rs ch
    let r2 := runChunks r1.1 rest
    (r2.1, r1.2 ++ r2.2)

/-- End-of-stream epilogue of readInputStream: flush a pending diagnostic
block, flush a pending resource, then send Done.  The unterminated line
buffer is not consulted here, mirroring the source. -/
def flushEOF (st : StreamState) : List Msg :=
  (if st.inDiagnostic ∧ st.diagLines ≠ [] then emitDiag st.diagLines else []) ++
  (match st.currentResource with
   | some r => [Msg.resource r]
   | none => []) ++ [Msg.done]

/-- Embedding of readInputStream run to completion on an input delivered as a
list of chunks (successive Read results), without cancellation: the full
ordered message sequence sent on the stream channel. -/
def readInputStream (chunks : List Str) : List Msg :=
  let r := runChunks ⟨[], initState⟩ chunks
  r.2 ++ flushEOF r.1.stream

example :
    readInputStream [str "╷\n│ Error: boom\n│ \n│   with aws_instance.web,\n╵\n"] =
      [Msg.diagnostic ⟨str "error", str "boom",
        [⟨[], false⟩, ⟨str "  with aws_instance.web,", false⟩], true⟩, Msg.done] := by
  decide

example :
    readInputStream [str "hello\nEnter a value: "] =
      [Msg.logLine (str "hello"), Msg.prompt (str "Enter a value:"), Msg.done] := by
  decide

/-- Reducer-side model fragment: the fields of Model in src/main.go that the
StreamMsg branch of Update reads or writes, plus the pipe/PTY mode flag. -/
structure ModelData where
  resources : List ResourceChange
  diagnostics : List Diagnostic
  logs : List Str
  prompt : Str
  showLogs : Bool
  done : Bool
  needsSync : Bool
  ptyMode : Bool
deriving DecidableEq

/-- Embedding of the StreamMsg case of Model.Update in src/main.go: Done sets
the finished flag and requests a resync; each payload is appended to its
collection (a resource additionally switches the view to plan mode). -/
def updateStream (m : ModelData) : Msg → ModelData
  | Msg.done => { m with done := true, needsSync := true }
  | Msg.resource r =>
    { m with resources := m.resources ++ [r], showLogs := false, needsSync := true }
  | Msg.diagnostic d =>
    { m with diagnostics := m.diagnostics ++ [d], needsSync := true }
  | Msg.logLine l => { m with logs := m.logs ++ [l], needsSync := true }
  | Msg.prompt p => { m with prompt := p, needsSync := true }

/-- Viewport-related fields of Model: cursor, scroll offset, terminal size,
the number of computed display lines, and whether a prompt is pinned. -/
structure ViewState where
  cursor : Int
  offset : Int
  width : Int
  height : Int
  numLines : Nat
  hasPrompt : Bool
deriving DecidableEq

/-- Embedding of visibleHeight: content height minus reserved rows, minus two
more when a prompt is pinned, floored at the minimum visible height. -/
def visibleHeight (v : ViewState) : Int :=
  let h0 := v.height - 6
  let h1 := if v.hasPrompt then h0 - 2 else h0
  if h1 < 5 then 5 else h1

/-- Embedding of clampCursor. -/
def clampCursor (v : ViewState) : ViewState :=
  let c0 := if v.cursor < 0 then 0 else v.cursor
  let maxC := if (v.numLines : Int) - 1 < 0 then 0 else (v.numLines : Int) - 1
  { v with cursor := if c0 > maxC then maxC else c0 }

/-- Embedding of clampOffset. -/
def clampOffset (v : ViewState) : ViewState :=
  let o0 := if v.offset < 0 then 0 else v.offset
  let maxO :=
    if (v.numLines : Int) - visibleHeight v < 0 then 0
    else (v.numLines : Int) - visibleHeight v
  { v with offset := if o0 > maxO then maxO else o0 }

/-- Embedding of ensureCursorVisible. -/
def ensureCursorVisible (v : ViewState) : ViewState :=
  let vh := visibleHeight v
  let v1 :=
    if v.cursor < v.offset then { v with offset := v.cursor }
    else if v.cursor ≥ v.offset + vh then { v with offset := v.cursor - vh + 1 }
    else v
  clampOffset v1

/-- Cursor-moving and resizing operations of handleKeyMsg, handleMouseMsg and
the WindowSizeMsg branch of Update.  Operations that rebuild the line list
(view toggle, expand toggle, expand/collapse all) carry the length the
rebuilt list turns out to have, since the projection itself is opaque to the
viewport logic. -/
inductive ViewOp where
  | moveUp
  | moveDown
  | wheelUp
  | wheelDown
  | pageUp
  | pageDown
  | goTop
  | goBottom
  | toggleView (n : Nat)
  | toggleItem (n : Nat)
  | setAll (n : Nat)
  | resize (w h : Int)
deriving DecidableEq

/-- Transition function for the viewport operations, mirroring the
corresponding branches of the source handlers. -/
def applyOp (v : ViewState) : ViewOp → ViewState
  | ViewOp.moveUp =>
    if v.cursor > 0 then ensureCursorVisible { v with cursor := v.cursor - 1 } else v
  | ViewOp.moveDown =>
    if v.cursor < (v.numLines : Int) - 1 then
      ensureCursorVisible { v with cursor := v.cursor + 1 }
    else v
  | ViewOp.wheelUp => ensureCursorVisible (clampCursor { v with cursor := v.cursor - 3 })
  | ViewOp.wheelDown => ensureCursorVisible (clampCursor { v with cursor := v.cursor + 3 })
  | ViewOp.pageUp =>
    ensureCursorVisible (clampCursor { v with cursor := v.cursor - Int.tdiv v.height 2 })
  | ViewOp.pageDown =>
    ensureCursorVisible (clampCursor { v with cursor := v.cursor + Int.tdiv v.height 2 })
  | ViewOp.goTop => { v with cursor := 0, offset := 0 }
  | ViewOp.goBottom => ensureCursorVisible { v with cursor := (v.numLines : Int) - 1 }
  | ViewOp.toggleView n => { v with numLines := n, cursor := 0, offset := 0 }
  | ViewOp.toggleItem n => clampOffset (clampCursor { v with numLines := n })
  | ViewOp.setAll n => clampOffset (clampCursor { v with numLines := n })
  | ViewOp.resize w h => { v with width := w, height := h }

/-- Upper bound for the scroll offset used by the viewport invariant. -/
def maxOffset (v : ViewState) : Int :=
  max 0 ((v.numLines : Int) - visibleHeight v)

/-- Cursor half of the viewport invariant: the cursor indexes a display line,
and sits at zero when the line list is empty. -/
def cursorInv (v : ViewState) : Prop :=
  (v.numLines = 0 → v.cursor = 0) ∧
  (0 < v.numLines → 0 ≤ v.cursor ∧ v.cursor < (v.numLines : Int))

/-- Full viewport invariant from the specification. -/
def viewInv (v : ViewState) : Prop :=
  cursorInv v ∧ 0 ≤ v.offset ∧ v.offset ≤ maxOffset v

instance (v : ViewState) : Decidable (cursorInv v) := by
  unfold cursorInv; infer_instance

instance (v : ViewState) : Decidable (viewInv v) := by
  unfold viewInv; infer_instance

/-- Width model for the external mattn/go-runewidth dependency (runewidth.
RuneWidth): zero for control characters, two for East Asian wide and
fullwidth ranges, one otherwise.  The wrapping theorems below do not depend
on the specific values. -/
def runeWidth (c : Char) : Nat :=
  let n := c.val
  if n < 0x20 || (0x7f ≤ n && n < 0xa0) then 0
  else if (0x1100 ≤ n && n ≤ 0x115F) || (0x2E80 ≤ n && n ≤ 0xA4CF) ||
      (0xAC00 ≤ n && n ≤ 0xD7A3) || (0xF900 ≤ n && n ≤ 0xFAFF) ||
      (0xFE30 ≤ n && n ≤ 0xFE4F) || (0xFF00 ≤ n && n ≤ 0xFF60) ||
      (0xFFE0 ≤ n && n ≤ 0xFFE6) || (0x20000 ≤ n && n ≤ 0x3FFFD) then 2
  else 1

/-- Main loop of wrapText: walk the runes, flushing the current line when the
next rune would exceed the width, and starting each continuation line with
the indent string. -/
def wrapLoop (width indent : Int) (indentStr : Str) :
    Str → Str → Int → List Str
  | [], curLine, _ => if curLine ≠ [] then [curLine] else []
  | r :: rest, curLine, curWidth =>
    let rw : Int := (runeWidth r : Int)
    if curWidth + rw > width then
      curLine :: wrapLoop width indent indentStr rest (indentStr ++ [r]) (indent + rw)
    else
      wrapLoop width indent indentStr rest (curLine ++ [r]) (curWidth + rw)

/-- Embedding of wrapText from the wrapping helper file: non-positive width
returns the input unsplit, empty input returns one empty line, and otherwise
the rune walk packs display-width units up to the width with a hanging
indent on continuation lines. -/
def wrapText (text : Str) (width indent : Int) : List Str :=
  if width ≤ 0 then [text]
  else if text.length = 0 then [[]]
  else wrapLoop width indent (List.replicate indent.toNat ' ') text [] 0

example : wrapText (str "1234567890") 8 0 = [str "12345678", str "90"] := by decide
example : wrapText (str "12345") 5 0 = [str "12345"] := by decide
example : wrapText (str "    Attribute = long") 10 4 =
    [str "    Attrib", str "    ute = ", str "    long"] := by decide

/-- Tokenised well-formed ANSI input: a stream of escape-free text chunks and
complete SGR sequences (ESC bracket params m).  This is the input class over
which the selective sanitizer is analysed. -/
inductive SgrTok where
  | text (s : Str)
  | code (params : Str)
deriving DecidableEq

/-- Rendering of one token to its character sequence. -/
def renderTok : SgrTok → Str
  | SgrTok.text s => s
  | SgrTok.code p => '\x1b' :: '[' :: (p ++ ['m'])

/-- Rendering of a token stream. -/
def renderToks (ts : List SgrTok) : Str := (ts.map renderTok).flatten

/-- Well-formedness of one token: text chunks contain no escape character and
SGR parameters use only digits and semicolons. -/
def wfTok : SgrTok → Prop
  | SgrTok.text s => ∀ c ∈ s, c ≠ '\x1b'
  | SgrTok.code p => ∀ c ∈ p, sgrParamChar c = true

instance : DecidablePred wfTok := by
  intro t; cases t <;> simp only [wfTok] <;> infer_instance

/-- Parameter strings whose SGR sequence is matched by ansiColorPattern:
exactly the bodies accepted by the alternation of the compiled regex. -/
def isColorParams (p : Str) : Bool :=
  match p with
  | [a, b] => (a == '3' || a == '4' || a == '9') && b.isDigit
  | [a, b, c] => a == '1' && b == '0' && c.isDigit
  | a :: b :: c :: _ :: _ => (a == '3' || a == '4') && b == '8' && c == ';'
  | _ => false

/-- Tokens that survive the colour-stripping pass. -/
def notColorTok : SgrTok → Bool
  | SgrTok.text _ => true
  | SgrTok.code p => !isColorParams p

/-- Tokens that survive the reset-stripping pass. -/
def notResetTok : SgrTok → Bool
  | SgrTok.text _ => true
  | SgrTok.code p => !(p == str "0")

example : isColorParams (str "31") = true := by decide
example : isColorParams (str "38;5;21") = true := by decide
example : isColorParams (str "108") = true := by decide
example : isColorParams (str "1") = false := by decide
example : isColorParams (str "4") = false := by decide
example : isColorParams (str "0") = false := by decide

/-
Theorems.  Each claim of the specification is settled below; shared helper
lemmas come first.
-/

section Helpers

lemma takeWhile_all_stop {p : Char → Bool} :
    ∀ (xs : Str) (y : Char) (r : Str), (∀ c ∈ xs, p c = true) → p y = false →
      ((xs ++ y :: r).takeWhile p = xs ∧ (xs ++ y :: r).dropWhile p = y :: r)
  | [], y, r, _, hy => by simp [List.takeWhile, List.dropWhile, hy]
  | x :: xs, y, r, hxs, hy => by
    have hx : p x = true := hxs x (by simp)
    have ih := takeWhile_all_stop xs y r (fun c hc => hxs c (by simp [hc])) hy
    simp [List.takeWhile, List.dropWhile, hx, ih.1, ih.2]

lemma wrapLoop_join_zero (w : Int) :
    ∀ (runes curLine : Str) (cw : Int),
      (wrapLoop w 0 [] runes curLine cw).flatten = curLine ++ runes := by
  intro runes
  induction runes with
  | nil =>
    intro curLine cw
    by_cases h : curLine = [] <;> simp [wrapLoop, h]
  | cons r rest ih =>
    intro curLine cw
    simp only [wrapLoop]
    split
    · simp [ih]
    · rw [ih]; simp

lemma wrapLoop_ne_nil_zero (w : Int) :
    ∀ (runes curLine : Str) (cw : Int), curLine ≠ [] ∨ runes ≠ [] →
      wrapLoop w 0 [] runes curLine cw ≠ [] := by
  intro runes
  induction runes with
  | nil =>
    intro curLine cw h
    rcases h with h | h
    · simp [wrapLoop, h]
    · exact absurd rfl h
  | cons r rest ih =>
    intro curLine cw _
    simp only [wrapLoop]
    split
    · simp
    · exact ih _ _ (Or.inl (by simp))

end Helpers

/-- Claim C10: for every input text and every width, wrapping with hanging
indent zero yields a non-empty list of lines whose concatenation is exactly
the input: the wrapper neither loses nor adds characters. -/
theorem wrapText_zero_indent_preserves_text (text : Str) (width : Int) :
    wrapText text width 0 ≠ [] ∧ (wrapText text width 0).flatten = text := by
  unfold wrapText
  split
  · simp
  · split
    · rename_i h
      simp [List.length_eq_zero.mp h]
    · rename_i hw hl
      have hne : text ≠ [] := fun h => hl (by simp [h])
      constructor
      · simpa using wrapLoop_ne_nil_zero width text [] 0 (Or.inr hne)
      · simpa using wrapLoop_join_zero width text [] 0

/-- Claim C6: the concrete create scenario.  Feeding the classifier the
four-line plan fragment yields exactly one ResourceChange with address
aws_instance.web, action create via the fixed phrase table, and a single
attribute line that preserves the original indentation of the ami line. -/
theorem classifier_concrete_create_scenario :
    readInputStream
      [str "# aws_instance.web will be created\n  + resource \"aws_instance\" \"web\" \x7b\n      + ami = \"x\"\n    \x7d\n"] =
      [Msg.resource ⟨str "aws_instance.web", str "create", str "will be created",
        [str "      + ami = \"x\""], false⟩, Msg.done] := by
  decide

/-- Claim C1 (failing run): the stream ends with a non-blank unterminated
line, yet readInputStream emits only the Done message — the trailing line
buffer is not flushed as a LogLine, contradicting the claim and the
repository's own TestLineBufferFlushAtEOF tests. -/
theorem readInputStream_drops_unterminated_tail :
    trimSpace (stripANSI (str "Error: something went wrong")) ≠ [] ∧
    readInputStream [str "Error: something went wrong"] = [Msg.done] := by
  decide

/-- Claim C2 (failing run): in pipe mode with no content received, processing
the terminal Done message leaves the diagnostics list empty — no warning
diagnostic suggesting a stderr redirect is added (and the embedded StreamMsg
shape from src/main.go carries no received-content flag at all). -/
theorem updateStream_done_adds_no_warning :
    (updateStream ⟨[], [], [], [], true, false, false, false⟩ Msg.done).diagnostics = [] ∧
    (updateStream ⟨[], [], [], [], true, false, false, false⟩ Msg.done).done = true := by
  constructor <;> rfl

/-- Claim C3 (failing run): a diagnostic block whose first line is a provider
preamble followed by an Error: line loses the preamble — the returned
Diagnostic has only the post-summary line in its detail, contradicting the
claim and the repository's TestPreSeverityLinesPreserved test. -/
theorem parseDiagnosticBlock_drops_preamble :
    parseDiagnosticBlock
      [str " Some context from the provider", str " Error: The actual error message",
       str " Detail line here"] =
      some ⟨str "error", str "The actual error message",
        [⟨str "Detail line here", false⟩], true⟩ := by
  decide

/-- Claim C5 counterexample: after the lines "╷" and "│" the classifier is
inside a diagnostic block with a non-empty buffer (one blank line), yet a
second block-open marker emits nothing, because the decoder returns no
diagnostic for an all-blank buffer. -/
theorem processLine_reopen_blank_buffer_emits_nothing :
    (processLines initState [str "╷", str "│"]).1.inDiagnostic = true ∧
    (processLines initState [str "╷", str "│"]).1.diagLines ≠ [] ∧
    (processLine (processLines initState [str "╷", str "│"]).1 (str "╷")).2 = [] := by
  decide

/-- Claim C5 as amended: when a block-open marker arrives while a diagnostic
block is open with a non-empty buffer, and the decoder yields a diagnostic
for that buffer (which it does exactly when the buffer holds a non-blank
line), that diagnostic is emitted and the new state starts a fresh empty
buffer. -/
theorem processLine_reopen_emits_open_block (st : StreamState) (rawLine : Str)
    (d : Diagnostic) (hdiag : st.inDiagnostic = true) (hne : st.diagLines ≠ [])
    (hparse : parseDiagnosticBlock st.diagLines = some d)
    (hopen : (str "╷").isPrefixOf (stripANSI rawLine) = true) :
    processLine st rawLine =
      ({ st with inDiagnostic := true, diagLines := [] }, [Msg.diagnostic d]) := by
  unfold processLine
  simp [hopen, hdiag, hne, emitDiag, hparse]

/-- Witness for the amended C5 theorem at a concrete open block. -/
theorem processLine_reopen_emits_open_block_witness :
    processLine ⟨none, [str " Error: boom"], false, true, 0⟩ (str "╷") =
      (⟨none, [], false, true, 0⟩,
       [Msg.diagnostic ⟨str "error", str "boom", [], true⟩]) :=
  processLine_reopen_emits_open_block _ _ _ rfl (by decide) (by decide) (by decide)

/-- Claim C7 counterexample: from a state satisfying the viewport invariant
with an empty line list, the jump-to-bottom operation sets the cursor to
minus one, violating the invariant. -/
theorem goBottom_empty_breaks_invariant :
    viewInv ⟨0, 0, 80, 20, 0, false⟩ ∧
    ¬ viewInv (applyOp ⟨0, 0, 80, 20, 0, false⟩ ViewOp.goBottom) ∧
    (applyOp ⟨0, 0, 80, 20, 0, false⟩ ViewOp.goBottom).cursor = -1 := by
  refine ⟨by decide, ?_, by decide⟩
  intro h
  have := h.1.1 rfl
  simp [applyOp, ensureCursorVisible, clampOffset, visibleHeight] at this

/-- Claim C8 counterexample: deleting a reset code can splice the surrounding
characters into a new reset code, so the output of the selective sanitizer
can contain a reset-all sequence: on the input ESC [ 0 ESC [ 0 m m the
output is exactly ESC [ 0 m. -/
theorem sanitize_splices_reset :
    sanitizeTerraformANSI (str "\x1b[0\x1b[0mm") = str "\x1b[0m" ∧
    hasReset (sanitizeTerraformANSI (str "\x1b[0\x1b[0mm")) = true := by
  decide

section DiagLoopLemmas

/-- When no line of the block matches the error or warning pattern, the main
decoder loop started with empty severity leaves all accumulators untouched. -/
lemma diagLoop_no_match (ls : List Str) :
    ∀ (i : Nat) (sum : Str) (det : List DiagnosticLine),
      (∀ l ∈ ls, errorMatch (trimSpace (stripANSI l)) = none ∧
        warningMatch (trimSpace (stripANSI l)) = none) →
      diagLoop ls i [] sum det = ([], sum, det) := by
  induction ls with
  | nil => intro i sum det _; rfl
  | cons l ls ih =>
    intro i sum det h
    obtain ⟨he, hw⟩ := h l (by simp)
    have ih' := ih (i + 1) sum det (fun x hx => h x (by simp [hx]))
    by_cases hb : trimSpace (stripANSI l) = []
    · simp [diagLoop, hb, ih']
    · simp [diagLoop, hb, he, hw, ih']

end DiagLoopLemmas

/-- Claim C4: on a block in which no line matches the Error:/Warning:
patterns, parseDiagnosticBlock still returns a Diagnostic whose summary is
the first non-empty line (ANSI-stripped, with the single guide space
removed), whose severity is error (hence expanded), and whose detail holds
the remaining non-empty lines; an all-blank or empty block yields none. -/
theorem parseDiagnosticBlock_fallback (richLines : List Str)
    (h : ∀ l ∈ richLines, errorMatch (trimSpace (stripANSI l)) = none ∧
      warningMatch (trimSpace (stripANSI l)) = none) :
    parseDiagnosticBlock richLines =
      match fallbackLines richLines with
      | [] => none
      | first :: rest =>
        some ⟨str "error", stripANSI first,
          rest.map (fun line => ⟨line, markerMatch (trimSpace (stripANSI line))⟩),
          true⟩ := by
  cases richLines with
  | nil => simp [parseDiagnosticBlock, fallbackLines]
  | cons a as =>
    unfold parseDiagnosticBlock
    rw [diagLoop_no_match _ _ _ _ h]
    simp

/-- Witness for the fallback theorem at a concrete unrecognised block. -/
theorem parseDiagnosticBlock_fallback_witness :
    (∀ l ∈ [str " plugin crashed!", str "  ", str " see logs"],
      errorMatch (trimSpace (stripANSI l)) = none ∧
        warningMatch (trimSpace (stripANSI l)) = none) ∧
    parseDiagnosticBlock [str " plugin crashed!", str "  ", str " see logs"] =
      some ⟨str "error", str "plugin crashed!", [⟨str "see logs", false⟩], true⟩ :=
  ⟨by decide,
   (parseDiagnosticBlock_fallback _ (by decide)).trans (by decide)⟩

/-- Claim C9: every Diagnostic returned by parseDiagnosticBlock is expanded
exactly when its severity is the string error: errors start expanded,
warnings start collapsed. -/
theorem parseDiagnosticBlock_expanded_iff_error (richLines : List Str)
    (d : Diagnostic) (h : parseDiagnosticBlock richLines = some d) :
    d.expanded = true ↔ d.severity = str "error" := by
  cases richLines with
  | nil => simp [parseDiagnosticBlock] at h
  | cons a as =>
    unfold parseDiagnosticBlock at h
    rcases hc : diagLoop (a :: as) 0 [] [] [] with ⟨sev, sum, det⟩
    rw [hc] at h
    simp only at h
    split at h
    · split at h
      · exact absurd h (by simp)
      · rw [Option.some_inj] at h
        subst h
        simp
    · rw [Option.some_inj] at h
      subst h
      simp [beq_iff_eq]

/-- Witness for the expansion theorem at a concrete warning block. -/
theorem parseDiagnosticBlock_expanded_iff_error_witness :
    parseDiagnosticBlock [str " Warning: deprecated"] =
      some ⟨str "warning", str "deprecated", [], false⟩ ∧
    ((false : Bool) = true ↔ (str "warning") = str "error") :=
  ⟨by decide,
   parseDiagnosticBlock_expanded_iff_error [str " Warning: deprecated"]
     ⟨str "warning", str "deprecated", [], false⟩ (by decide)⟩

section ViewportLemmas

lemma cursorInv_congr {v v' : ViewState} (h1 : v'.cursor = v.cursor)
    (h2 : v'.numLines = v.numLines) (hv : cursorInv v) : cursorInv v' := by
  unfold cursorInv at *
  rw [h1, h2]
  exact hv

lemma clampCursor_cursorInv (v : ViewState) : cursorInv (clampCursor v) := by
  unfold clampCursor cursorInv
  dsimp only
  constructor <;> intro h <;> split_ifs <;> omega

lemma clampCursor_other (v : ViewState) :
    (clampCursor v).offset = v.offset ∧ (clampCursor v).numLines = v.numLines ∧
    (clampCursor v).height = v.height ∧ (clampCursor v).hasPrompt = v.hasPrompt := by
  unfold clampCursor
  exact ⟨rfl, rfl, rfl, rfl⟩

lemma clampOffset_bounds (v : ViewState) :
    0 ≤ (clampOffset v).offset ∧ (clampOffset v).offset ≤ maxOffset (clampOffset v) := by
  unfold clampOffset maxOffset visibleHeight
  dsimp only
  split_ifs <;> simp [max_def] <;> split_ifs <;> omega

lemma clampOffset_other (v : ViewState) :
    (clampOffset v).cursor = v.cursor ∧ (clampOffset v).numLines = v.numLines := by
  unfold clampOffset
  exact ⟨rfl, rfl⟩

lemma ensure_cursor (u : ViewState) : (ensureCursorVisible u).cursor = u.cursor := by
  unfold ensureCursorVisible clampOffset
  dsimp only
  split_ifs <;> rfl

lemma ensure_numLines (u : ViewState) : (ensureCursorVisible u).numLines = u.numLines := by
  unfold ensureCursorVisible clampOffset
  dsimp only
  split_ifs <;> rfl

lemma ensure_offsets (v : ViewState) :
    0 ≤ (ensureCursorVisible v).offset ∧
    (ensureCursorVisible v).offset ≤ maxOffset (ensureCursorVisible v) := by
  unfold ensureCursorVisible
  dsimp only
  constructor
  · split_ifs <;> exact (clampOffset_bounds _).1
  · split_ifs <;> exact (clampOffset_bounds _).2

end ViewportLemmas

/-- Claim C7 as amended: starting from a state satisfying the viewport
invariant, every cursor-movement operation re-establishes it, except that
jump-to-bottom on an empty line list sets the cursor to minus one (hence the
non-emptiness guard); a resize preserves the cursor bounds and the
non-negativity of the offset but does not re-clamp the offset against the
new viewport height, so its upper bound is only restored by the next
clamping operation. -/
theorem viewOps_preserve_invariant (v : ViewState) (op : ViewOp)
    (hinv : viewInv v) (hbot : op = ViewOp.goBottom → 0 < v.numLines) :
    cursorInv (applyOp v op) ∧ 0 ≤ (applyOp v op).offset ∧
      ((∀ pw ph, op ≠ ViewOp.resize pw ph) →
        (applyOp v op).offset ≤ maxOffset (applyOp v op)) := by
  obtain ⟨⟨hc0, hcpos⟩, hoff0, hoffmax⟩ := hinv
  cases op with
  | moveUp =>
    simp only [applyOp]
    split_ifs with h
    · have hn : 0 < v.numLines := by
        rcases Nat.eq_zero_or_pos v.numLines with h0 | h0
        · exact absurd (hc0 h0) (by omega)
        · exact h0
      obtain ⟨ho1, ho2⟩ := ensure_offsets { v with cursor := v.cursor - 1 }
      refine ⟨⟨?_, ?_⟩, ho1, fun _ => ho2⟩ <;> rw [ensure_cursor, ensure_numLines]
      · intro h0
        have h0' : v.numLines = 0 := h0
        omega
      · intro _
        have := hcpos hn
        constructor <;> simp <;> omega
    · exact ⟨⟨hc0, hcpos⟩, hoff0, fun _ => hoffmax⟩
  | moveDown =>
    simp only [applyOp]
    split_ifs with h
    · have hn : 0 < v.numLines := by
        rcases Nat.eq_zero_or_pos v.numLines with h0 | h0
        · rw [hc0 h0, h0] at h; omega
        · exact h0
      obtain ⟨ho1, ho2⟩ := ensure_offsets { v with cursor := v.cursor + 1 }
      refine ⟨⟨?_, ?_⟩, ho1, fun _ => ho2⟩ <;> rw [ensure_cursor, ensure_numLines]
      · intro h0
        have h0' : v.numLines = 0 := h0
        omega
      · intro _
        have := hcpos hn
        constructor <;> simp <;> omega
    · exact ⟨⟨hc0, hcpos⟩, hoff0, fun _ => hoffmax⟩
  | wheelUp =>
    obtain ⟨ho1, ho2⟩ := ensure_offsets (clampCursor { v with cursor := v.cursor - 3 })
    exact ⟨cursorInv_congr (ensure_cursor _) (ensure_numLines _)
      (clampCursor_cursorInv _), ho1, fun _ => ho2⟩
  | wheelDown =>
    obtain ⟨ho1, ho2⟩ := ensure_offsets (clampCursor { v with cursor := v.cursor + 3 })
    exact ⟨cursorInv_congr (ensure_cursor _) (ensure_numLines _)
      (clampCursor_cursorInv _), ho1, fun _ => ho2⟩
  | pageUp =>
    obtain ⟨ho1, ho2⟩ :=
      ensure_offsets (clampCursor { v with cursor := v.cursor - Int.tdiv v.height 2 })
    exact ⟨cursorInv_congr (ensure_cursor _) (ensure_numLines _)
      (clampCursor_cursorInv _), ho1, fun _ => ho2⟩
  | pageDown =>
    obtain ⟨ho1, ho2⟩ :=
      ensure_offsets (clampCursor { v with cursor := v.cursor + Int.tdiv v.height 2 })
    exact ⟨cursorInv_congr (ensure_cursor _) (ensure_numLines _)
      (clampCursor_cursorInv _), ho1, fun _ => ho2⟩
  | goTop =>
    simp only [applyOp]
    refine ⟨⟨fun _ => rfl, fun h0 => ?_⟩, le_refl 0, fun _ => le_max_left 0 _⟩
    have h0' : 0 < v.numLines := h0
    exact ⟨by simp, by simp; omega⟩
  | goBottom =>
    have hn := hbot rfl
    simp only [applyOp]
    obtain ⟨ho1, ho2⟩ := ensure_offsets { v with cursor := (v.numLines : Int) - 1 }
    refine ⟨⟨?_, ?_⟩, ho1, fun _ => ho2⟩ <;> rw [ensure_cursor, ensure_numLines]
    · intro h0
      have h0' : v.numLines = 0 := h0
      omega
    · intro _
      refine ⟨?_, ?_⟩
      · show (0 : Int) ≤ (v.numLines : Int) - 1
        omega
      · show (v.numLines : Int) - 1 < (v.numLines : Int)
        omega
  | toggleView n =>
    simp only [applyOp]
    refine ⟨⟨fun _ => rfl, fun h0 => ?_⟩, le_refl 0, fun _ => le_max_left 0 _⟩
    have h0' : 0 < n := h0
    exact ⟨by simp, by simp; omega⟩
  | toggleItem n =>
    simp only [applyOp]
    obtain ⟨hcur, hnum⟩ := clampOffset_other (clampCursor { v with numLines := n })
    obtain ⟨ho1, ho2⟩ := clampOffset_bounds (clampCursor { v with numLines := n })
    exact ⟨cursorInv_congr hcur hnum (clampCursor_cursorInv _), ho1, fun _ => ho2⟩
  | setAll n =>
    simp only [applyOp]
    obtain ⟨hcur, hnum⟩ := clampOffset_other (clampCursor { v with numLines := n })
    obtain ⟨ho1, ho2⟩ := clampOffset_bounds (clampCursor { v with numLines := n })
    exact ⟨cursorInv_congr hcur hnum (clampCursor_cursorInv _), ho1, fun _ => ho2⟩
  | resize w h =>
    refine ⟨cursorInv_congr rfl rfl ⟨hc0, hcpos⟩, hoff0, ?_⟩
    intro habs
    exact absurd rfl (habs w h)

/-- Witness for the amended viewport theorem: one concrete move-down step. -/
theorem viewOps_preserve_invariant_witness :
    cursorInv (applyOp ⟨2, 0, 80, 24, 5, false⟩ ViewOp.moveDown) ∧
    0 ≤ (applyOp ⟨2, 0, 80, 24, 5, false⟩ ViewOp.moveDown).offset ∧
      ((∀ pw ph, ViewOp.moveDown ≠ ViewOp.resize pw ph) →
        (applyOp ⟨2, 0, 80, 24, 5, false⟩ ViewOp.moveDown).offset ≤
          maxOffset (applyOp ⟨2, 0, 80, 24, 5, false⟩ ViewOp.moveDown)) :=
  viewOps_preserve_invariant ⟨2, 0, 80, 24, 5, false⟩ ViewOp.moveDown
    (by decide) (by intro h; cases h)

section SanitizerLemmas

lemma sgrParamChar_ne {c : Char} (h : sgrParamChar c = true) :
    c ≠ 'm' ∧ c ≠ '\x1b' := by
  refine ⟨fun hc => ?_, fun hc => ?_⟩ <;> subst hc <;> exact absurd h (by decide)

lemma bool_false_of (b : Bool) (h : b = true → False) : b = false := by
  cases hb : b
  · rfl
  · exact absurd hb h

lemma matchColor_ne_esc {c : Char} (h : c ≠ '\x1b') (l : Str) :
    matchColor (c :: l) = none := by
  cases l with
  | nil => rfl
  | cons b rest => simp [matchColor, h]

lemma expectLit_reset_ne_esc {c : Char} (h : c ≠ '\x1b') (l : Str) :
    expectLit resetSeq (c :: l) = none := by
  simp [resetSeq, expectLit, h]

lemma expectLit_self_append (p r : Str) : expectLit p (p ++ r) = some r := by
  induction p with
  | nil => rfl
  | cons c p ih => simp [expectLit, ih]

lemma removeColorAux_nil (f : Nat) : removeColorAux f [] = [] := by
  cases f <;> rfl

lemma removeResetAux_nil (f : Nat) : removeResetAux f [] = [] := by
  cases f <;> rfl

lemma removeColorAux_text :
    ∀ (t : Str) (f : Nat) (r : Str), (∀ c ∈ t, c ≠ '\x1b') →
      removeColorAux (t.length + f) (t ++ r) = t ++ removeColorAux f r := by
  intro t
  induction t with
  | nil => intro f r _; simp
  | cons c t ih =>
    intro f r h
    have hm : matchColor (c :: (t ++ r)) = none := matchColor_ne_esc (h c (by simp)) _
    have hlen : (c :: t).length + f = (t.length + f) + 1 := by
      simp [Nat.add_right_comm]
    rw [hlen]
    simp only [List.cons_append, removeColorAux, List.append_eq, hm]
    rw [ih f r fun x hx => h x (by simp [hx])]

lemma removeResetAux_text :
    ∀ (t : Str) (f : Nat) (r : Str), (∀ c ∈ t, c ≠ '\x1b') →
      removeResetAux (t.length + f) (t ++ r) = t ++ removeResetAux f r := by
  intro t
  induction t with
  | nil => intro f r _; simp
  | cons c t ih =>
    intro f r h
    have hm := expectLit_reset_ne_esc (h c (by simp)) (t ++ r)
    have hlen : (c :: t).length + f = (t.length + f) + 1 := by
      simp [Nat.add_right_comm]
    rw [hlen]
    simp only [List.cons_append, removeResetAux, List.append_eq, hm]
    rw [ih f r fun x hx => h x (by simp [hx])]

lemma takeWhile_run {p : Char → Bool} :
    ∀ (xs : Str) (y : Char) (r : Str), (∀ c ∈ xs, p c = true) → p y = false →
      (xs ++ y :: r).takeWhile p = xs ∧ (xs ++ y :: r).dropWhile p = y :: r
  | [], y, r, _, hy => by simp [List.takeWhile, List.dropWhile, hy]
  | x :: xs, y, r, hxs, hy => by
    have hx : p x = true := hxs x (by simp)
    have ih := takeWhile_run xs y r (fun c hc => hxs c (by simp [hc])) hy
    simp [List.takeWhile, List.dropWhile, hx, ih.1, ih.2]

lemma colorBodyRem_token :
    ∀ (p r : Str), (∀ c ∈ p, sgrParamChar c = true) →
      colorBodyRem (p ++ 'm' :: r) = if isColorParams p then some r else none := by
  intro p r hp
  have hm : sgrParamChar 'm' = false := by decide
  match p with
  | [] =>
    cases r with
    | nil => rfl
    | cons x rest =>
      show colorBodyRem ('m' :: x :: rest) = _
      simp only [colorBodyRem]
      rw [if_neg fun hcond => absurd hcond.1 (by decide),
        if_neg fun hcond => absurd hcond.1 (by decide)]
      simp [isColorParams]
  | [a] =>
    show colorBodyRem (a :: 'm' :: r) = _
    simp only [colorBodyRem]
    rw [if_neg fun hcond => absurd hcond.2 (by decide),
      if_neg fun hcond => absurd hcond.2 (by decide)]
    simp [isColorParams]
  | a :: b :: ps =>
    have ha := hp a (by simp)
    have hb := hp b (by simp)
    have hps : ∀ c ∈ ps, sgrParamChar c = true := fun c hc => hp c (by simp [hc])
    by_cases h1 : (a = '3' ∨ a = '4' ∨ a = '9') ∧ b.isDigit
    · match ps with
      | [] =>
        have hicp : isColorParams [a, b] = true := by
          simp only [isColorParams, Bool.and_eq_true, Bool.or_eq_true, beq_iff_eq]
          exact ⟨by tauto, h1.2⟩
        show colorBodyRem (a :: b :: 'm' :: r) = _
        rw [hicp]
        simp only [colorBodyRem]
        rw [if_pos h1]
        simp
      | c :: ps2 =>
        have hc := hps c (by simp)
        have hcm : ¬ (c = 'm') := (sgrParamChar_ne hc).1
        have hps2 : ∀ x ∈ ps2, sgrParamChar x = true := fun x hx => hps x (by simp [hx])
        show colorBodyRem (a :: b :: c :: (ps2 ++ 'm' :: r)) = _
        by_cases hsemi : c = ';'
        · subst hsemi
          by_cases h38 : (a = '3' ∨ a = '4') ∧ b = '8'
          · match ps2 with
            | [] =>
              have hicp : isColorParams [a, b, ';'] = false := by simp [isColorParams]
              rw [hicp]
              show colorBodyRem (a :: b :: ';' :: 'm' :: r) = _
              simp only [colorBodyRem]
              rw [if_pos h1, if_pos h38,
                if_neg (show ¬(List.takeWhile sgrParamChar ('m' :: r) ≠ []) from by
                  simp [List.takeWhile, hm])]
              simp
            | d :: ps3 =>
              have hrun := takeWhile_run (d :: ps3) 'm' r hps2 hm
              have hicp : isColorParams (a :: b :: ';' :: d :: ps3) = true := by
                simp only [isColorParams, Bool.and_eq_true, Bool.or_eq_true, beq_iff_eq]
                exact ⟨⟨by tauto, h38.2⟩, trivial⟩
              rw [hicp]
              show colorBodyRem (a :: b :: ';' :: ((d :: ps3) ++ 'm' :: r)) = _
              simp only [colorBodyRem]
              rw [if_pos h1, if_pos h38,
                if_pos (show List.takeWhile sgrParamChar ((d :: ps3) ++ 'm' :: r) ≠ [] from by
                  rw [hrun.1]; exact fun habs => List.noConfusion habs),
                hrun.2]
              simp
          · have hicp : isColorParams (a :: b :: ';' :: ps2) = false := by
              match ps2 with
              | [] => simp [isColorParams]
              | d :: ps3 =>
                apply bool_false_of
                intro habs
                simp only [isColorParams, Bool.and_eq_true, Bool.or_eq_true, beq_iff_eq] at habs
                exact h38 ⟨habs.1.1, habs.1.2⟩
            rw [hicp]
            show colorBodyRem (a :: b :: ';' :: (ps2 ++ 'm' :: r)) = _
            rcases ps2 with _ | ⟨d, ps3⟩
            · simp only [colorBodyRem, List.nil_append]
              rw [if_pos h1, if_neg h38]
              simp
            · simp only [colorBodyRem, List.cons_append]
              rw [if_pos h1, if_neg h38]
              simp
        · have hicp : isColorParams (a :: b :: c :: ps2) = false := by
            match ps2 with
            | [] =>
              apply bool_false_of
              intro habs
              simp only [isColorParams, Bool.and_eq_true, beq_iff_eq] at habs
              rcases h1.1 with h | h | h <;> rw [h] at habs <;>
                exact absurd habs.1.1 (by decide)
            | z :: zs =>
              apply bool_false_of
              intro habs
              simp only [isColorParams, Bool.and_eq_true, Bool.or_eq_true, beq_iff_eq] at habs
              exact hsemi habs.2
          rw [hicp]
          rcases ps2 with _ | ⟨d, ps3⟩
          · simp only [colorBodyRem, List.nil_append]
            rw [if_pos h1, if_neg hcm, if_neg hsemi]
            simp
          · simp only [colorBodyRem, List.cons_append]
            rw [if_pos h1, if_neg hcm, if_neg hsemi]
            simp
    · by_cases h10 : a = '1' ∧ b = '0'
      · match ps with
        | [] =>
          have hicp : isColorParams [a, b] = false := by
            apply bool_false_of
            intro habs
            simp only [isColorParams, Bool.and_eq_true, Bool.or_eq_true, beq_iff_eq] at habs
            exact h1 ⟨by tauto, habs.2⟩
          rw [hicp]
          show colorBodyRem (a :: b :: 'm' :: r) = _
          cases r with
          | nil =>
            simp only [colorBodyRem]
            rw [if_neg h1, if_pos h10]
            simp
          | cons x rest =>
            simp only [colorBodyRem]
            rw [if_neg h1, if_pos h10,
              if_neg (show ¬(('m' : Char).isDigit ∧ x = 'm') from
                fun habs => absurd habs.1 (by decide))]
            simp
        | [c] =>
          have hc := hps c (by simp)
          have hicp : isColorParams [a, b, c] = c.isDigit := by
            simp [isColorParams, h10.1, h10.2]
          rw [hicp]
          show colorBodyRem (a :: b :: c :: 'm' :: r) = _
          simp only [colorBodyRem]
          rw [if_neg h1, if_pos h10]
          by_cases hd : c.isDigit
          · rw [if_pos ⟨hd, trivial⟩]
            simp [hd]
          · rw [if_neg fun habs => hd habs.1]
            simp [hd]
        | c :: d :: ps3 =>
          have hc := hps c (by simp)
          have hd := hps d (by simp)
          have hicp : isColorParams (a :: b :: c :: d :: ps3) = false := by
            apply bool_false_of
            intro habs
            simp only [isColorParams, Bool.and_eq_true, Bool.or_eq_true, beq_iff_eq] at habs
            rcases habs.1.1 with hh | hh <;> rw [hh] at h10 <;>
              exact absurd h10.1 (by decide)
          rw [hicp]
          show colorBodyRem (a :: b :: c :: d :: (ps3 ++ 'm' :: r)) = _
          simp only [colorBodyRem, List.cons_append]
          rw [if_neg h1, if_pos h10,
            if_neg (show ¬(c.isDigit ∧ d = 'm') from
              fun habs => absurd habs.2 (sgrParamChar_ne hd).1)]
          simp
      · have hnone : colorBodyRem (a :: b :: (ps ++ 'm' :: r)) = none := by
          rcases ps with _ | ⟨c, ps2⟩
          · cases r with
            | nil =>
              simp only [colorBodyRem, List.nil_append]
              rw [if_neg h1, if_neg h10]
            | cons x rest =>
              simp only [colorBodyRem, List.nil_append]
              rw [if_neg h1, if_neg h10]
          · simp only [colorBodyRem, List.cons_append]
            rw [if_neg h1, if_neg h10]
        simp only [List.cons_append]
        rw [hnone]
        have hicp : isColorParams (a :: b :: ps) = false := by
          rcases ps with _ | ⟨c, _ | ⟨d, ps3⟩⟩
          · apply bool_false_of
            intro habs
            simp only [isColorParams, Bool.and_eq_true, Bool.or_eq_true, beq_iff_eq] at habs
            exact h1 ⟨by tauto, habs.2⟩
          · apply bool_false_of
            intro habs
            simp only [isColorParams, Bool.and_eq_true, Bool.or_eq_true, beq_iff_eq] at habs
            exact h10 ⟨habs.1.1, habs.1.2⟩
          · apply bool_false_of
            intro habs
            simp only [isColorParams, Bool.and_eq_true, Bool.or_eq_true, beq_iff_eq] at habs
            have hb8 : b = '8' := habs.1.2
            rcases habs.1.1 with hh | hh <;>
              exact h1 ⟨by tauto, by rw [hb8]; decide⟩
        rw [hicp]
        simp

lemma matchColor_token (p r : Str) (hp : ∀ c ∈ p, sgrParamChar c = true) :
    matchColor ('\x1b' :: '[' :: (p ++ 'm' :: r)) =
      if isColorParams p then some r else none := by
  have h : matchColor ('\x1b' :: '[' :: (p ++ 'm' :: r)) = colorBodyRem (p ++ 'm' :: r) := by
    show (if ('\x1b' : Char) = '\x1b' ∧ ('[' : Char) = '[' then
      colorBodyRem (p ++ 'm' :: r) else none) = _
    rw [if_pos ⟨rfl, rfl⟩]
  rw [h]
  exact colorBodyRem_token p r hp

lemma removeColorAux_color (p r : Str) (f : Nat)
    (hp : ∀ c ∈ p, sgrParamChar c = true) (hcp : isColorParams p = true) :
    removeColorAux (f + 1) ('\x1b' :: '[' :: (p ++ 'm' :: r)) = removeColorAux f r := by
  have hmc := matchColor_token p r hp
  rw [hcp] at hmc
  simp at hmc
  simp only [removeColorAux, hmc]

lemma removeColorAux_noncolor (p r : Str) (f : Nat)
    (hp : ∀ c ∈ p, sgrParamChar c = true) (hcp : isColorParams p = false) :
    removeColorAux ((p.length + 3) + f) ('\x1b' :: '[' :: (p ++ 'm' :: r)) =
      '\x1b' :: '[' :: (p ++ ['m']) ++ removeColorAux f r := by
  have hmc := matchColor_token p r hp
  rw [hcp] at hmc
  simp at hmc
  have hstep : (p.length + 3) + f = ((p.length + 2) + f) + 1 := by omega
  rw [hstep]
  simp only [removeColorAux, hmc]
  have htext : ∀ c ∈ '[' :: (p ++ ['m']), c ≠ '\x1b' := by
    intro c hc
    rcases List.mem_cons.mp hc with h | h
    · rw [h]; decide
    · rcases List.mem_append.mp h with h2 | h2
      · exact (sgrParamChar_ne (hp c h2)).2
      · rw [List.mem_singleton.mp h2]; decide
  have hlen : ('[' :: (p ++ ['m'])).length = p.length + 2 := by simp
  have happ : ('[' :: (p ++ ['m'])) ++ r = '[' :: (p ++ 'm' :: r) := by simp
  have := removeColorAux_text ('[' :: (p ++ ['m'])) f r htext
  rw [hlen, happ] at this
  rw [this]
  simp

lemma expectLit_reset_token (p r : Str) (hp : ∀ c ∈ p, sgrParamChar c = true)
    (hne : p ≠ str "0") :
    expectLit resetSeq ('\x1b' :: '[' :: (p ++ 'm' :: r)) = none := by
  match p with
  | [] => simp [resetSeq, expectLit]
  | c :: ps =>
    by_cases hc0 : c = '0'
    · subst hc0
      match ps with
      | [] => exact absurd rfl hne
      | d :: ps2 =>
        have hd := hp d (by simp)
        simp [resetSeq, expectLit, (sgrParamChar_ne hd).1]
    · simp [resetSeq, expectLit, hc0]

lemma removeResetAux_reset (r : Str) (f : Nat) :
    removeResetAux (f + 1) (resetSeq ++ r) = removeResetAux f r := by
  have : expectLit resetSeq (resetSeq ++ r) = some r := expectLit_self_append _ _
  show removeResetAux (f + 1) ('\x1b' :: '[' :: '0' :: 'm' :: r) = removeResetAux f r
  simp only [removeResetAux]
  rw [show ('\x1b' :: '[' :: '0' :: 'm' :: r) = resetSeq ++ r from rfl, this]

lemma removeResetAux_nonreset (p r : Str) (f : Nat)
    (hp : ∀ c ∈ p, sgrParamChar c = true) (hne : p ≠ str "0") :
    removeResetAux ((p.length + 3) + f) ('\x1b' :: '[' :: (p ++ 'm' :: r)) =
      '\x1b' :: '[' :: (p ++ ['m']) ++ removeResetAux f r := by
  have hmc := expectLit_reset_token p r hp hne
  have hstep : (p.length + 3) + f = ((p.length + 2) + f) + 1 := by omega
  rw [hstep]
  simp only [removeResetAux, hmc]
  have htext : ∀ c ∈ '[' :: (p ++ ['m']), c ≠ '\x1b' := by
    intro c hc
    rcases List.mem_cons.mp hc with h | h
    · rw [h]; decide
    · rcases List.mem_append.mp h with h2 | h2
      · exact (sgrParamChar_ne (hp c h2)).2
      · rw [List.mem_singleton.mp h2]; decide
  have hlen : ('[' :: (p ++ ['m'])).length = p.length + 2 := by simp
  have happ : ('[' :: (p ++ ['m'])) ++ r = '[' :: (p ++ 'm' :: r) := by simp
  have := removeResetAux_text ('[' :: (p ++ ['m'])) f r htext
  rw [hlen, happ] at this
  rw [this]
  simp

lemma renderToks_nil : renderToks [] = [] := rfl

lemma renderToks_cons (t : SgrTok) (ts : List SgrTok) :
    renderToks (t :: ts) = renderTok t ++ renderToks ts := by
  simp [renderToks]

lemma renderToks_append (xs ys : List SgrTok) :
    renderToks (xs ++ ys) = renderToks xs ++ renderToks ys := by
  simp [renderToks]

lemma code_render_eq (p r : Str) :
    renderTok (SgrTok.code p) ++ r = '\x1b' :: '[' :: (p ++ 'm' :: r) := by
  simp [renderTok]

lemma removeColorAux_render :
    ∀ (toks : List SgrTok) (f : Nat), (∀ t ∈ toks, wfTok t) →
      removeColorAux ((renderToks toks).length + f) (renderToks toks) =
        renderToks (toks.filter notColorTok) := by
  intro toks
  induction toks with
  | nil => intro f _; simpa [renderToks_nil] using removeColorAux_nil f
  | cons t ts ih =>
    intro f hwf
    have hwt : wfTok t := hwf t (by simp)
    have hwts : ∀ x ∈ ts, wfTok x := fun x hx => hwf x (by simp [hx])
    cases t with
    | text s =>
      rw [renderToks_cons]
      have hlen : (renderTok (SgrTok.text s) ++ renderToks ts).length + f =
          s.length + ((renderToks ts).length + f) := by
        simp [renderTok]; omega
      rw [hlen]
      rw [show renderTok (SgrTok.text s) = s from rfl]
      rw [removeColorAux_text s ((renderToks ts).length + f) (renderToks ts) hwt]
      rw [ih f hwts]
      have : (SgrTok.text s :: ts).filter notColorTok =
          SgrTok.text s :: ts.filter notColorTok := by
        simp [List.filter, notColorTok]
      rw [this, renderToks_cons]
      rfl
    | code p =>
      have hp : ∀ c ∈ p, sgrParamChar c = true := hwt
      rw [renderToks_cons, code_render_eq]
      by_cases hcp : isColorParams p = true
      · have hlen : ('\x1b' :: '[' :: (p ++ 'm' :: renderToks ts)).length + f =
            ((renderToks ts).length + (f + p.length + 2)) + 1 := by
          simp; omega
        rw [hlen]
        rw [removeColorAux_color p (renderToks ts) _ hp hcp]
        rw [ih (f + p.length + 2) hwts]
        have : (SgrTok.code p :: ts).filter notColorTok = ts.filter notColorTok := by
          simp [List.filter, notColorTok, hcp]
        rw [this]
      · have hcp' : isColorParams p = false := by
          cases h : isColorParams p
          · rfl
          · exact absurd h hcp
        have hlen : ('\x1b' :: '[' :: (p ++ 'm' :: renderToks ts)).length + f =
            (p.length + 3) + ((renderToks ts).length + f) := by
          simp; omega
        rw [hlen]
        rw [removeColorAux_noncolor p (renderToks ts) _ hp hcp']
        rw [ih f hwts]
        have : (SgrTok.code p :: ts).filter notColorTok =
            SgrTok.code p :: ts.filter notColorTok := by
          simp [List.filter, notColorTok, hcp']
        rw [this, renderToks_cons]
        simp [renderTok]

lemma removeResetAux_render :
    ∀ (toks : List SgrTok) (f : Nat), (∀ t ∈ toks, wfTok t) →
      removeResetAux ((renderToks toks).length + f) (renderToks toks) =
        renderToks (toks.filter notResetTok) := by
  intro toks
  induction toks with
  | nil => intro f _; simpa [renderToks_nil] using removeResetAux_nil f
  | cons t ts ih =>
    intro f hwf
    have hwt : wfTok t := hwf t (by simp)
    have hwts : ∀ x ∈ ts, wfTok x := fun x hx => hwf x (by simp [hx])
    cases t with
    | text s =>
      rw [renderToks_cons]
      have hlen : (renderTok (SgrTok.text s) ++ renderToks ts).length + f =
          s.length + ((renderToks ts).length + f) := by
        simp [renderTok]; omega
      rw [hlen]
      rw [show renderTok (SgrTok.text s) = s from rfl]
      rw [removeResetAux_text s ((renderToks ts).length + f) (renderToks ts) hwt]
      rw [ih f hwts]
      have : (SgrTok.text s :: ts).filter notResetTok =
          SgrTok.text s :: ts.filter notResetTok := by
        simp [List.filter, notResetTok]
      rw [this, renderToks_cons]
      rfl
    | code p =>
      have hp : ∀ c ∈ p, sgrParamChar c = true := hwt
      rw [renderToks_cons, code_render_eq]
      by_cases hz : p = str "0"
      · subst hz
        have hlen : ('\x1b' :: '[' :: (str "0" ++ 'm' :: renderToks ts)).length + f =
            ((renderToks ts).length + (f + 3)) + 1 := by
          simp [str]; omega
        rw [hlen]
        have hseq : ('\x1b' :: '[' :: (str "0" ++ 'm' :: renderToks ts)) =
            resetSeq ++ renderToks ts := rfl
        rw [hseq, removeResetAux_reset (renderToks ts) _]
        rw [ih (f + 3) hwts]
        have : (SgrTok.code (str "0") :: ts).filter notResetTok =
            ts.filter notResetTok := by
          simp [List.filter, notResetTok]
        rw [this]
      · have hlen : ('\x1b' :: '[' :: (p ++ 'm' :: renderToks ts)).length + f =
            (p.length + 3) + ((renderToks ts).length + f) := by
          simp; omega
        rw [hlen]
        rw [removeResetAux_nonreset p (renderToks ts) _ hp hz]
        rw [ih f hwts]
        have : (SgrTok.code p :: ts).filter notResetTok =
            SgrTok.code p :: ts.filter notResetTok := by
          have hb : (p == str "0") = false := by
            simp [hz]
          simp [List.filter, notResetTok, hb]
        rw [this, renderToks_cons]
        simp [renderTok]

lemma sanitize_render (toks : List SgrTok) (hwf : ∀ t ∈ toks, wfTok t) :
    sanitizeTerraformANSI (renderToks toks) =
      renderToks ((toks.filter notColorTok).filter notResetTok) := by
  unfold sanitizeTerraformANSI removeColor removeReset
  have h1 := removeColorAux_render toks 0 hwf
  rw [Nat.add_zero] at h1
  rw [h1]
  have hwf2 : ∀ t ∈ toks.filter notColorTok, wfTok t :=
    fun t ht => hwf t (List.mem_of_mem_filter ht)
  have h2 := removeResetAux_render (toks.filter notColorTok) 0 hwf2
  rw [Nat.add_zero] at h2
  exact h2

lemma hasReset_text (t : Str) (r : Str) (h : ∀ c ∈ t, c ≠ '\x1b') :
    hasReset (t ++ r) = hasReset r := by
  induction t with
  | nil => rfl
  | cons c t ih =>
    have hc := expectLit_reset_ne_esc (h c (by simp)) (t ++ r)
    simp only [List.cons_append, hasReset, List.append_eq, hc, Option.isSome_none,
      Bool.false_or]
    exact ih fun x hx => h x (by simp [hx])

lemma hasReset_render (toks : List SgrTok) (hwf : ∀ t ∈ toks, wfTok t)
    (hnr : ∀ p, SgrTok.code p ∈ toks → p ≠ str "0") :
    hasReset (renderToks toks) = false := by
  induction toks with
  | nil => rfl
  | cons t ts ih =>
    have hwt : wfTok t := hwf t (by simp)
    have hwts : ∀ x ∈ ts, wfTok x := fun x hx => hwf x (by simp [hx])
    have hnrs : ∀ p, SgrTok.code p ∈ ts → p ≠ str "0" :=
      fun p hp => hnr p (by simp [hp])
    cases t with
    | text s =>
      rw [renderToks_cons, show renderTok (SgrTok.text s) = s from rfl,
        hasReset_text s _ hwt]
      exact ih hwts hnrs
    | code p =>
      rw [renderToks_cons, code_render_eq]
      have hz : p ≠ str "0" := hnr p (by simp)
      have hstart := expectLit_reset_token p (renderToks ts) hwt hz
      have hstep : hasReset ('\x1b' :: '[' :: (p ++ 'm' :: renderToks ts)) =
          ((expectLit resetSeq ('\x1b' :: '[' :: (p ++ 'm' :: renderToks ts))).isSome ||
            hasReset ('[' :: (p ++ 'm' :: renderToks ts))) := rfl
      rw [hstep, hstart]
      simp only [Option.isSome_none, Bool.false_or]
      have htext : ∀ c ∈ '[' :: (p ++ ['m']), c ≠ '\x1b' := by
        intro c hc
        rcases List.mem_cons.mp hc with h | h
        · rw [h]; decide
        · rcases List.mem_append.mp h with h2 | h2
          · exact (sgrParamChar_ne (hwt c h2)).2
          · rw [List.mem_singleton.mp h2]; decide
      have happ : ('[' :: (p ++ ['m'])) ++ renderToks ts =
          '[' :: (p ++ 'm' :: renderToks ts) := by simp
      rw [← happ, hasReset_text _ _ htext]
      exact ih hwts hnrs

lemma not_contains_of_hasReset_false :
    ∀ (s : Str), hasReset s = false → ∀ u v, s ≠ u ++ resetSeq ++ v := by
  intro s
  induction s with
  | nil =>
    intro _ u v habs
    have hlen := congrArg List.length habs
    simp [resetSeq] at hlen
    omega
  | cons c rest ih =>
    intro h u v habs
    have h' : (expectLit resetSeq (c :: rest)).isSome = false ∧ hasReset rest = false := by
      simpa [hasReset, Bool.or_eq_false_iff] using h
    cases u with
    | nil =>
      rw [show (([] : Str) ++ resetSeq ++ v) = resetSeq ++ v from by simp] at habs
      have := h'.1
      rw [habs, expectLit_self_append] at this
      exact Bool.noConfusion this
    | cons x u2 =>
      rw [show ((x :: u2) ++ resetSeq ++ v) = x :: (u2 ++ resetSeq ++ v) from by simp] at habs
      injection habs with h1 h2
      exact ih h'.2 u2 v h2

end SanitizerLemmas

/-- Claim C8 as amended: on well-formed ANSI input (every escape character
begins a complete SGR sequence ESC bracket params m), the output of the
selective sanitizer never contains a reset-all code, while every bold
(ESC bracket 1 m) and underline (ESC bracket 4 m) code present in the input
is preserved in the output.  On malformed input a reset-all code can survive
by splicing, as the counterexample shows. -/
theorem sanitize_wellformed_no_reset_keeps_formatting (toks : List SgrTok)
    (hwf : ∀ t ∈ toks, wfTok t) :
    (∀ u v, sanitizeTerraformANSI (renderToks toks) ≠ u ++ resetSeq ++ v) ∧
    (SgrTok.code (str "1") ∈ toks →
      ∃ u v, sanitizeTerraformANSI (renderToks toks) = u ++ str "\x1b[1m" ++ v) ∧
    (SgrTok.code (str "4") ∈ toks →
      ∃ u v, sanitizeTerraformANSI (renderToks toks) = u ++ str "\x1b[4m" ++ v) := by
  have hs := sanitize_render toks hwf
  have hwf2 : ∀ t ∈ (toks.filter notColorTok).filter notResetTok, wfTok t :=
    fun t ht => hwf t (List.mem_of_mem_filter (List.mem_of_mem_filter ht))
  refine ⟨?_, ?_, ?_⟩
  · rw [hs]
    apply not_contains_of_hasReset_false
    apply hasReset_render _ hwf2
    intro p hp
    have hmem := (List.mem_filter.mp hp).2
    simp only [notResetTok, Bool.not_eq_true'] at hmem
    intro habs
    rw [habs] at hmem
    simp at hmem
  · intro hmem
    have hmem2 : SgrTok.code (str "1") ∈ (toks.filter notColorTok).filter notResetTok := by
      refine List.mem_filter.mpr ⟨List.mem_filter.mpr ⟨hmem, by decide⟩, by decide⟩
    obtain ⟨l1, l2, hsplit⟩ := List.append_of_mem hmem2
    refine ⟨renderToks l1, renderToks l2, ?_⟩
    rw [hs, hsplit, renderToks_append, renderToks_cons]
    simp [renderTok, str]
  · intro hmem
    have hmem2 : SgrTok.code (str "4") ∈ (toks.filter notColorTok).filter notResetTok := by
      refine List.mem_filter.mpr ⟨List.mem_filter.mpr ⟨hmem, by decide⟩, by decide⟩
    obtain ⟨l1, l2, hsplit⟩ := List.append_of_mem hmem2
    refine ⟨renderToks l1, renderToks l2, ?_⟩
    rw [hs, hsplit, renderToks_append, renderToks_cons]
    simp [renderTok, str]

/-- Witness for the amended sanitizer theorem at a concrete token stream. -/
theorem sanitize_wellformed_witness :
    (∀ u v,
      sanitizeTerraformANSI (renderToks
        [SgrTok.text (str "Error"), SgrTok.code (str "31"), SgrTok.code (str "1"),
         SgrTok.code (str "0"), SgrTok.code (str "4")]) ≠ u ++ resetSeq ++ v) ∧
    (SgrTok.code (str "1") ∈
        [SgrTok.text (str "Error"), SgrTok.code (str "31"), SgrTok.code (str "1"),
         SgrTok.code (str "0"), SgrTok.code (str "4")] →
      ∃ u v,
        sanitizeTerraformANSI (renderToks
          [SgrTok.text (str "Error"), SgrTok.code (str "31"), SgrTok.code (str "1"),
           SgrTok.code (str "0"), SgrTok.code (str "4")]) = u ++ str "\x1b[1m" ++ v) ∧
    (SgrTok.code (str "4") ∈
        [SgrTok.text (str "Error"), SgrTok.code (str "31"), SgrTok.code (str "1"),
         SgrTok.code (str "0"), SgrTok.code (str "4")] →
      ∃ u v,
        sanitizeTerraformANSI (renderToks
          [SgrTok.text (str "Error"), SgrTok.code (str "31"), SgrTok.code (str "1"),
           SgrTok.code (str "0"), SgrTok.code (str "4")]) = u ++ str "\x1b[4m" ++ v) :=
  sanitize_wellformed_no_reset_keeps_formatting _ (by decide)


end Terraui
